import Mathlib

/-!
Verification development for the tldw embedding store.

The embedding store of this repository consists of

* the Postgres migration `20250809000000_add_embeddings_support.sql`, which
  defines the `public.embeddings` table (768-dimensional pgvector column,
  `UNIQUE(extraction_id, task_type)`, per-user rows) together with the SQL
  functions `find_similar_content`, `find_duplicate_content`,
  `get_embedding_stats` and `cluster_embeddings`;
* the edge function `generate-embeddings`, whose upsert logic is the store's
  `put` operation; and
* the client-side utility `EmbeddingUtils.cosineSimilarity`
  (`apps/chrome-extension/src/lib/embeddings.ts`).

Vectors are modelled as lists of integers (exact values).  Every IEEE-float
vector equals an integer vector scaled by a positive power of two, and
cosine similarity is invariant under positive scaling of each stored
vector, so every float instance of the store has an integer instance with
the same similarities, the same filter outcomes and the same orderings.
Similarity thresholds stay rational.  pgvector's `<=>` operator is the
cosine distance `1 - dot a b / (‖a‖ * ‖b‖)`; since `‖a‖` is a square root,
SQL comparisons on it are modelled by decidable integer comparators
(`simGeB`, `simGeT`) whose agreement with the real-valued comparison is
proved (`simGeB_iff`, `simGeT_iff`) for vectors of nonzero norm.
-/

namespace TLDW

/-- Exact value of the dot product of two vectors. -/
def dotQ (a b : List ℤ) : ℤ := (List.zipWith (· * ·) a b).sum

/-- Sum of squares of the entries: the square of the Euclidean norm. -/
def normSq (a : List ℤ) : ℤ := (a.map (fun x => x * x)).sum

theorem normSq_nonneg (a : List ℤ) : 0 ≤ normSq a := by
  induction a with
  | nil => simp [normSq]
  | cons x t ih =>
    simp only [normSq, List.map_cons, List.sum_cons]
    have hx : 0 ≤ x * x := mul_self_nonneg x
    simpa [normSq] using add_nonneg hx ih

theorem eq_zero_of_normSq_eq_zero {a : List ℤ} (h : normSq a = 0) :
    ∀ x ∈ a, x = 0 := by
  induction a with
  | nil => simp
  | cons x t ih =>
    simp only [normSq, List.map_cons, List.sum_cons] at h
    have hx : 0 ≤ x * x := mul_self_nonneg x
    have ht : 0 ≤ normSq t := normSq_nonneg t
    have hx0 : x * x = 0 := by
      have : normSq t = (t.map (fun y => y * y)).sum := rfl
      nlinarith [this ▸ ht]
    have hxz : x = 0 := by nlinarith
    intro y hy
    rcases List.mem_cons.mp hy with rfl | hy
    · exact hxz
    · apply ih _ y hy
      have : normSq t = (t.map (fun y => y * y)).sum := rfl
      nlinarith [this ▸ ht]

theorem dotQ_eq_zero_left {a : List ℤ} (b : List ℤ) (h : ∀ x ∈ a, x = 0) :
    dotQ a b = 0 := by
  induction a generalizing b with
  | nil => simp [dotQ]
  | cons x t ih =>
    cases b with
    | nil => simp [dotQ]
    | cons y s =>
      have hx : x = 0 := h x (List.mem_cons_self x t)
      have ht : ∀ z ∈ t, z = 0 := fun z hz => h z (List.mem_cons_of_mem x hz)
      simp only [dotQ, List.zipWith_cons_cons, List.sum_cons, hx, zero_mul]
      simpa [dotQ] using ih s ht

theorem dotQ_eq_zero_right {b : List ℤ} (a : List ℤ) (h : ∀ x ∈ b, x = 0) :
    dotQ a b = 0 := by
  induction a generalizing b with
  | nil => simp [dotQ]
  | cons x t ih =>
    cases b with
    | nil => simp [dotQ]
    | cons y s =>
      have hy : y = 0 := h y (List.mem_cons_self y s)
      have hs : ∀ z ∈ s, z = 0 := fun z hz => h z (List.mem_cons_of_mem y hz)
      simp only [dotQ, List.zipWith_cons_cons, List.sum_cons, hy, mul_zero]
      simpa [dotQ] using ih hs

/-- Decidable surrogate for the real comparison `d2 / √n2 ≤ d1 / √n1`
(used for `ORDER BY embedding <=> query`: smaller cosine distance means
larger similarity).  Faithfulness is `simGeB_iff`. -/
def simGeB (d1 n1 d2 n2 : ℤ) : Bool :=
  if 0 ≤ d1 then
    (if 0 ≤ d2 then decide (d2 ^ 2 * n1 ≤ d1 ^ 2 * n2) else true)
  else
    (if 0 ≤ d2 then false else decide (d1 ^ 2 * n2 ≤ d2 ^ 2 * n1))

/-- Decidable surrogate for the real comparison `t ≤ d / (√n1 * √n2)`
(the `similarity >= threshold` filter): the rational threshold is compared
through its numerator and denominator.  Faithfulness is `simGeT_iff`. -/
def simGeT (d n1 n2 : ℤ) (t : ℚ) : Bool :=
  if 0 ≤ t.num then
    decide (0 ≤ d) && decide (t.num ^ 2 * (n1 * n2) ≤ d ^ 2 * (t.den : ℤ) ^ 2)
  else !(decide (d < 0) && decide (t.num ^ 2 * (n1 * n2) < d ^ 2 * (t.den : ℤ) ^ 2))

/-- One iteration of the accumulator loop: the running
`(dotProduct, normA, normB)` after processing index `i`. -/
def cosineStep (a b : List ℤ) (acc : ℤ × ℤ × ℤ) (i : Nat) : ℤ × ℤ × ℤ :=
  (acc.1 + a.getD i 0 * b.getD i 0,
   acc.2.1 + a.getD i 0 * a.getD i 0,
   acc.2.2 + b.getD i 0 * b.getD i 0)

/-- The accumulators after the loop `for (i = 0; i < a.length; i++)`. -/
def cosineAccum (a b : List ℤ) : ℤ × ℤ × ℤ :=
  (List.range a.length).foldl (cosineStep a b) (0, 0, 0)

/-- Outcome of the JavaScript computation.  `err` is the thrown length
mismatch error.  `fin d na nb` is the finite value
`d / (Math.sqrt na * Math.sqrt nb)` (denominator nonzero); the remaining
constructors are the IEEE outcomes of the final division when the
denominator `sqrt(normA) * sqrt(normB)` is zero: `0/0 = NaN` and
`±x/0 = ±Infinity`. -/
inductive CosResult where
  | err : CosResult
  | nan : CosResult
  | posInf : CosResult
  | negInf : CosResult
  | fin : ℤ → ℤ → ℤ → CosResult
deriving DecidableEq

/-- Shallow embedding of `EmbeddingUtils.cosineSimilarity`.  The branch on
`normA = 0 ∨ normB = 0` captures exactly the inputs on which the real
denominator `sqrt(normA) * sqrt(normB)` is zero (a square root of a
nonnegative rational is zero iff the radicand is). -/
def cosineSimilarity (a b : List ℤ) : CosResult :=
  if a.length ≠ b.length then .err
  else
    let acc := cosineAccum a b
    if acc.2.1 = 0 ∨ acc.2.2 = 0 then
      if acc.1 = 0 then .nan else if 0 < acc.1 then .posInf else .negInf
    else .fin acc.1 acc.2.1 acc.2.2

/-- The IEEE outcome of `d / (sqrt na * sqrt nb)` for exact inputs,
written with the straightforward recursive `dotQ`/`normSq`. -/
def jsCosineValue (d na nb : ℤ) : CosResult :=
  if na = 0 ∨ nb = 0 then
    if d = 0 then .nan else if 0 < d then .posInf else .negInf
  else .fin d na nb

theorem sum_take_succ (l : List ℤ) (n : Nat) (h : n < l.length) :
    (l.take (n + 1)).sum = (l.take n).sum + l[n] := by
  rw [List.take_succ, List.sum_append, List.getElem?_eq_getElem h]
  simp

theorem foldl_cosineStep (a b : List ℤ) :
    ∀ n, n ≤ a.length → n ≤ b.length →
      (List.range n).foldl (cosineStep a b) (0, 0, 0) =
        (((List.zipWith (· * ·) a b).take n).sum,
         ((a.map fun x => x * x).take n).sum,
         ((b.map fun x => x * x).take n).sum) := by
  intro n
  induction n with
  | zero => intro _ _; simp
  | succ n ih =>
    intro ha hb
    have ha' : n < a.length := Nat.lt_of_succ_le ha
    have hb' : n < b.length := Nat.lt_of_succ_le hb
    have hz : n < (List.zipWith (· * ·) a b).length := by
      rw [List.length_zipWith]; omega
    have hma : n < (a.map fun x => x * x).length := by
      rw [List.length_map]; omega
    have hmb : n < (b.map fun x => x * x).length := by
      rw [List.length_map]; omega
    rw [List.range_succ, List.foldl_append, ih (le_of_lt ha') (le_of_lt hb')]
    simp only [List.foldl_cons, List.foldl_nil, cosineStep]
    rw [sum_take_succ _ _ hz, sum_take_succ _ _ hma, sum_take_succ _ _ hmb,
      List.getElem_zipWith, List.getElem_map, List.getElem_map,
      List.getD_eq_getElem a 0 ha', List.getD_eq_getElem b 0 hb']

theorem cosineAccum_eq (a b : List ℤ) (h : a.length = b.length) :
    cosineAccum a b = (dotQ a b, normSq a, normSq b) := by
  unfold cosineAccum
  rw [foldl_cosineStep a b a.length (le_refl _) (le_of_eq h)]
  have hz : (List.zipWith (· * ·) a b).length = a.length := by
    rw [List.length_zipWith, h, min_self]
  have hma : (a.map fun x => x * x).length = a.length := List.length_map _ _
  have hmb : (b.map fun x => x * x).length = a.length := by
    rw [List.length_map, h]
  rw [List.take_of_length_le (le_of_eq hz), List.take_of_length_le (le_of_eq hma),
    List.take_of_length_le (le_of_eq hmb)]
  rfl

/-- `cosineSimilarity` on equal-length inputs is the IEEE value of
`dotQ a b / (sqrt (normSq a) * sqrt (normSq b))`. -/
theorem cosineSimilarity_eq_jsCosineValue (a b : List ℤ) (h : a.length = b.length) :
    cosineSimilarity a b = jsCosineValue (dotQ a b) (normSq a) (normSq b) := by
  unfold cosineSimilarity jsCosineValue
  rw [if_neg (by omega), cosineAccum_eq a b h]

/-! ### Data model: the `public.embeddings` table and its companions

Columns follow `20250809000000_add_embeddings_support.sql`.  UUIDs and
timestamps are modelled as `Nat`, SQL `text` as `String`, the pgvector
column as `List ℤ`. -/

/-- `embedding_task_type` enum of the migration. -/
inductive EmbeddingTaskType where
  | RETRIEVAL_QUERY
  | RETRIEVAL_DOCUMENT
  | SEMANTIC_SIMILARITY
  | CLASSIFICATION
  | CLUSTERING
deriving DecidableEq

/-- A row of `public.embeddings`. -/
structure EmbeddingRow where
  id : Nat
  extraction_id : Nat
  user_id : Nat
  embedding : List ℤ
  model : String
  task_type : EmbeddingTaskType
  content_hash : String
  source_text : String
  text_length : Nat
  tokens_used : Option Nat
  processing_time_ms : Option Nat
  created_at : Nat
  updated_at : Nat
deriving DecidableEq

/-- The columns of `public.extractions` used by the embedding layer. -/
structure ExtractionRow where
  id : Nat
  user_id : Nat
  title : String
  url : String
  summary : String
  created_at : Nat
deriving DecidableEq

/-- `JOIN public.extractions ex ON ex.id = emb.extraction_id`: each embedding
row paired with its (unique, by primary key) extraction row; rows without a
matching extraction are dropped (inner join). -/
def joinExtractions (embs : List EmbeddingRow) (exs : List ExtractionRow) :
    List (EmbeddingRow × ExtractionRow) :=
  embs.filterMap fun e => (exs.find? fun x => x.id == e.extraction_id).map fun x => (e, x)

/-- Output row of `find_similar_content`.  The SQL function returns a float
`similarity_score = 1 - (embedding <=> query)`; the row here carries the
record's `embedding` instead, so the score is the (irrational, in general)
`cosSimR embedding query`. -/
structure SimilarRow where
  extraction_id : Nat
  embedding : List ℤ
  title : String
  url : String
  summary : String
  created_at : Nat
deriving DecidableEq

/-- `ORDER BY emb.embedding <=> query_embedding`: ascending cosine distance,
i.e. non-increasing cosine similarity, on joined rows. -/
def simPairLe (q : List ℤ) (p1 p2 : EmbeddingRow × ExtractionRow) : Prop :=
  simGeB (dotQ p1.1.embedding q) (normSq p1.1.embedding)
    (dotQ p2.1.embedding q) (normSq p2.1.embedding) = true

instance (q : List ℤ) : DecidableRel (simPairLe q) := fun p1 p2 => by
  unfold simPairLe; infer_instance

/-- The `FROM ... JOIN ... WHERE` part of `find_similar_content`:
`emb.user_id = target_user_id AND (1 - (emb.embedding <=> query_embedding))
>= similarity_threshold`. -/
def similarCandidates (embs : List EmbeddingRow) (exs : List ExtractionRow)
    (q : List ℤ) (threshold : ℚ) (uid : Nat) : List (EmbeddingRow × ExtractionRow) :=
  (joinExtractions embs exs).filter fun p =>
    p.1.user_id == uid &&
      simGeT (dotQ p.1.embedding q) (normSq p.1.embedding) (normSq q) threshold

/-- The SELECT list of `find_similar_content` applied to one joined row. -/
def mkSimilarRow (p : EmbeddingRow × ExtractionRow) : SimilarRow :=
  { extraction_id := p.1.extraction_id
    embedding := p.1.embedding
    title := p.2.title
    url := p.2.url
    summary := p.2.summary
    created_at := p.2.created_at }

/-- `public.find_similar_content(query_embedding, similarity_threshold,
max_results, target_user_id)`. -/
def find_similar_content (embs : List EmbeddingRow) (exs : List ExtractionRow)
    (q : List ℤ) (threshold : ℚ) (maxResults : Nat) (uid : Nat) : List SimilarRow :=
  (((similarCandidates embs exs q threshold uid).insertionSort (simPairLe q)).take
      maxResults).map mkSimilarRow

/-! ### `find_duplicate_content` -/

/-- Output row of `find_duplicate_content`; as with `SimilarRow` the row
carries the matched record's `embedding` (and its `content_hash`) in place
of the float `similarity_score`. -/
structure DupRow where
  extraction_id : Nat
  embedding : List ℤ
  title : String
  url : String
  content_hash : String
  is_exact_duplicate : Bool
deriving DecidableEq

/-- `ORDER BY (emb.content_hash = content_hash) DESC,
emb.embedding <=> query_embedding`.  The body of `find_duplicate_content`
is `LANGUAGE sql`, and in a SQL-language function an unqualified name that
matches a column of the query resolves to the column, not to a same-named
function parameter.  The unqualified `content_hash` therefore denotes the
column `emb.content_hash` (the `hash` parameter is shadowed), so the first
sort key is the self-comparison `emb.content_hash = emb.content_hash` —
modelled here literally as `p.1.content_hash == p.1.content_hash` in the
first operand and `p.2.content_hash == p.2.content_hash` in the second.
The `hash` parameter is kept, unused, to mirror the SQL signature. -/
def dupPairLeB (hash : String) (q : List ℤ)
    (p1 p2 : EmbeddingRow × ExtractionRow) : Bool :=
  (p1.1.content_hash == p1.1.content_hash
        && !(p2.1.content_hash == p2.1.content_hash)) ||
    (((p1.1.content_hash == p1.1.content_hash)
          == (p2.1.content_hash == p2.1.content_hash)) &&
      simGeB (dotQ p1.1.embedding q) (normSq p1.1.embedding)
        (dotQ p2.1.embedding q) (normSq p2.1.embedding))

def dupPairLe (hash : String) (q : List ℤ)
    (p1 p2 : EmbeddingRow × ExtractionRow) : Prop :=
  dupPairLeB hash q p1 p2 = true

instance (hash : String) (q : List ℤ) : DecidableRel (dupPairLe hash q) :=
  fun p1 p2 => by unfold dupPairLe; infer_instance

/-- The `WHERE` part of `find_duplicate_content`: owner scope and
`emb.content_hash = content_hash OR similarity >= threshold`.  As in
`dupPairLeB`, the unqualified `content_hash` resolves to the column
`emb.content_hash`, so the first disjunct is the self-comparison
`p.1.content_hash == p.1.content_hash`; the `hash` parameter is unused. -/
def dupCandidates (embs : List EmbeddingRow) (exs : List ExtractionRow)
    (hash : String) (q : List ℤ) (threshold : ℚ) (uid : Nat) :
    List (EmbeddingRow × ExtractionRow) :=
  (joinExtractions embs exs).filter fun p =>
    p.1.user_id == uid &&
      (p.1.content_hash == p.1.content_hash ||
        simGeT (dotQ p.1.embedding q) (normSq p.1.embedding) (normSq q) threshold)

/-- `public.find_duplicate_content(content_hash, query_embedding,
similarity_threshold, target_user_id)`; note the hard `LIMIT 10`.  The
`is_exact_duplicate` column is `(emb.content_hash = content_hash)` whose
unqualified `content_hash` again resolves to the column, i.e. the
self-comparison `p.1.content_hash == p.1.content_hash`; the `hash`
parameter is unused throughout the function. -/
def find_duplicate_content (embs : List EmbeddingRow) (exs : List ExtractionRow)
    (hash : String) (q : List ℤ) (threshold : ℚ) (uid : Nat) : List DupRow :=
  (((dupCandidates embs exs hash q threshold uid).insertionSort
      (dupPairLe hash q)).take 10).map fun p =>
    { extraction_id := p.1.extraction_id, embedding := p.1.embedding,
      title := p.2.title, url := p.2.url, content_hash := p.1.content_hash,
      is_exact_duplicate := p.1.content_hash == p.1.content_hash }

/-! ### `get_embedding_stats` -/

/-- Output of `get_embedding_stats` (aggregates over the owner's rows; SQL
aggregates over an empty set are NULL, here `none`). -/
structure StatsRow where
  total_embeddings : Nat
  models_used : List String
  avg_text_length : Option ℚ
  oldest_embedding : Option Nat
  newest_embedding : Option Nat
deriving DecidableEq

/-- `public.get_embedding_stats(target_user_id)`. -/
def get_embedding_stats (embs : List EmbeddingRow) (uid : Nat) : StatsRow :=
  let mine := embs.filter fun e => e.user_id == uid
  { total_embeddings := mine.length
    models_used := (mine.map fun e => e.model).dedup
    avg_text_length :=
      if mine.length = 0 then none
      else some ((mine.map fun e => (e.text_length : ℚ)).sum / (mine.length : ℚ))
    oldest_embedding := (mine.map fun e => e.created_at).min?
    newest_embedding := (mine.map fun e => e.created_at).max? }

/-! ### `cluster_embeddings` -/

/-- Output row of `cluster_embeddings`; carries `embedding` and the matched
`centroid` in place of the float `distance_to_centroid`. -/
structure ClusterRow where
  extraction_id : Nat
  cluster_id : Nat
  embedding : List ℤ
  centroid : List ℤ
  title : String
  url : String
deriving DecidableEq

/-- `ORDER BY emb.embedding <=> rc.centroid` inside the scalar subquery:
distances of one embedding to two different centroids; no common factor
cancels, so the full products of squared norms appear. -/
def centroidLe (e : List ℤ) (c1 c2 : Nat × List ℤ) : Prop :=
  simGeB (dotQ e c1.2) (normSq e * normSq c1.2)
    (dotQ e c2.2) (normSq e * normSq c2.2) = true

instance (e : List ℤ) : DecidableRel (centroidLe e) := fun c1 c2 => by
  unfold centroidLe; infer_instance

/-- `ORDER BY a.cluster_id, distance_to_centroid` of the outer query. -/
def clusterRowLe (r1 r2 : ClusterRow) : Prop :=
  r1.cluster_id < r2.cluster_id ∨ (r1.cluster_id = r2.cluster_id ∧
    simGeB (dotQ r1.embedding r1.centroid) (normSq r1.embedding * normSq r1.centroid)
      (dotQ r2.embedding r2.centroid) (normSq r2.embedding * normSq r2.centroid) = true)

instance : DecidableRel clusterRowLe := fun r1 r2 => by
  unfold clusterRowLe; infer_instance

/-- `public.cluster_embeddings(num_clusters, target_user_id)`.
`ORDER BY random() LIMIT num_clusters` draws `num_clusters` of the owner's
rows in an unspecified order; it is modelled as taking them in scan order
(one possible outcome of `random()`); no theorem below depends on which
rows are drawn.  `row_number() OVER ()` numbers the centroids from 1.
The scalar subquery `SELECT rc.cluster_id ... ORDER BY dist LIMIT 1` is the
head of the centroid list sorted by distance, NULL (dropped by the final
inner join) when there are no centroids.  The function body contains no
error path: it cannot fail, whatever `num_clusters` is. -/
def cluster_embeddings (embs : List EmbeddingRow) (exs : List ExtractionRow)
    (k : Nat) (uid : Nat) : List ClusterRow :=
  let mine := embs.filter fun e => e.user_id == uid
  let cents : List (Nat × List ℤ) := (mine.take k).enum.map fun p => (p.1 + 1, p.2.embedding)
  let assigns := (joinExtractions mine exs).filterMap fun p =>
    ((cents.insertionSort (centroidLe p.1.embedding)).head?).map fun c => (p, c.1)
  let rows := assigns.filterMap fun t =>
    (cents.find? fun c => c.1 == t.2).map fun c =>
      ({ extraction_id := t.1.1.extraction_id, cluster_id := c.1,
         embedding := t.1.1.embedding, centroid := c.2,
         title := t.1.2.title, url := t.1.2.url } : ClusterRow)
  rows.insertionSort clusterRowLe

/-! ### `put`: the upsert of the generate-embeddings edge function

Lines 175-232 of the function (after authentication and the extraction
ownership check): select the existing embedding for
`(extraction_id, task_type)`; if present, UPDATE it by `id`, else INSERT a
new row.  The dimension check is the pgvector `vector(768)` column type:
a vector of any other length makes the INSERT or UPDATE fail atomically
(no row written), surfaced here as `dimensionMismatch`.  `updated_at` is
set by the `update_embeddings_updated_at` trigger on UPDATE, and both
timestamps default to `NOW()` on INSERT. -/

/-- Server-side state: the `public.embeddings` table plus the id generator. -/
structure Store where
  rows : List EmbeddingRow
  nextId : Nat
deriving DecidableEq

/-- Inputs of one generate-embeddings request after validation (the vector
comes from the embedding provider, the hash and lengths from `content`). -/
structure PutArgs where
  extraction_id : Nat
  user_id : Nat
  embedding : List ℤ
  task_type : EmbeddingTaskType
  content_hash : String
  source_text : String
  processing_time_ms : Option Nat
deriving DecidableEq

/-- The fixed dimensionality of the `vector(768)` column. -/
def embeddingDim : Nat := 768

inductive PutError where
  | dimensionMismatch : PutError
deriving DecidableEq

/-- `.eq('extraction_id', extraction_id).eq('task_type', task_type)`. -/
def keyMatches (p : PutArgs) (r : EmbeddingRow) : Bool :=
  r.extraction_id == p.extraction_id && decide (r.task_type = p.task_type)

/-- The UPDATE of the existing row (everything but `id`, `extraction_id`,
`user_id`, `created_at`; `tokens_used` is written as NULL; `updated_at` by
the trigger). -/
def updatedRow (p : PutArgs) (now : Nat) (r : EmbeddingRow) : EmbeddingRow :=
  { r with
    embedding := p.embedding
    model := "gemini-embedding-001"
    task_type := p.task_type
    content_hash := p.content_hash
    source_text := p.source_text
    text_length := p.source_text.length
    tokens_used := none
    processing_time_ms := p.processing_time_ms
    updated_at := now }

/-- The INSERTed row. -/
def newRow (p : PutArgs) (id now : Nat) : EmbeddingRow :=
  { id := id
    extraction_id := p.extraction_id
    user_id := p.user_id
    embedding := p.embedding
    model := "gemini-embedding-001"
    task_type := p.task_type
    content_hash := p.content_hash
    source_text := p.source_text
    text_length := p.source_text.length
    tokens_used := none
    processing_time_ms := p.processing_time_ms
    created_at := now
    updated_at := now }

/-- The upsert.  Returns the resulting table state together with the
embedding id on success; on a dimension mismatch the write is rejected by
the column type and the state is returned as it was. -/
def put (s : Store) (p : PutArgs) (now : Nat) : Store × Except PutError Nat :=
  match s.rows.find? (keyMatches p) with
  | some r =>
    if p.embedding.length = embeddingDim then
      ({ s with rows := s.rows.map fun r0 => if r0.id == r.id then updatedRow p now r0 else r0 },
        .ok r.id)
    else (s, .error .dimensionMismatch)
  | none =>
    if p.embedding.length = embeddingDim then
      ({ rows := s.rows ++ [newRow p s.nextId now], nextId := s.nextId + 1 }, .ok s.nextId)
    else (s, .error .dimensionMismatch)

/-- A sequence of `put` calls (each with its wall-clock time); a failed call
leaves the state unchanged. -/
def runPuts (s : Store) : List (PutArgs × Nat) → Store
  | [] => s
  | op :: ops => runPuts (put s op.1 op.2).1 ops

/-- Distinct primary keys (`id UUID PRIMARY KEY`). -/
def UniqueIds (rows : List EmbeddingRow) : Prop :=
  rows.Pairwise fun a b => a.id ≠ b.id

/-- The `UNIQUE(extraction_id, task_type)` constraint of the migration. -/
def UniqueKeys (rows : List EmbeddingRow) : Prop :=
  rows.Pairwise fun a b => ¬(a.extraction_id = b.extraction_id ∧ a.task_type = b.task_type)

/-- Table well-formedness: both uniqueness constraints, and every present id
was generated before `nextId`. -/
def WellFormed (s : Store) : Prop :=
  UniqueIds s.rows ∧ UniqueKeys s.rows ∧ ∀ r ∈ s.rows, r.id < s.nextId

/-! ### Sortedness of `insertionSort` for comparators that are only total and
transitive on the elements actually present (nonzero-norm vectors). -/

theorem filterMap_filter {α β : Type} (f : α → Option β) (pr : α → Bool) (proj : β → α)
    (hf : ∀ a b, f a = some b → proj b = a) :
    ∀ l : List α, (l.filter pr).filterMap f = (l.filterMap f).filter fun b => pr (proj b) := by
  intro l
  induction l with
  | nil => rfl
  | cons a t ih =>
    by_cases hpr : pr a = true
    · rw [List.filter_cons_of_pos hpr, List.filterMap_cons, List.filterMap_cons]
      cases hfa : f a with
      | none => exact ih
      | some b =>
        rw [List.filter_cons_of_pos (by rw [hf a b hfa]; exact hpr), ih]
    · have hpr' : pr a = false := by
        cases h : pr a
        · rfl
        · exact absurd h hpr
      rw [List.filter_cons_of_neg (by rw [hpr']; exact Bool.false_ne_true),
        List.filterMap_cons, ih]
      cases hfa : f a with
      | none => rfl
      | some b =>
        rw [List.filter_cons_of_neg
          (by rw [hf a b hfa, hpr']; exact Bool.false_ne_true)]

theorem filter_filter_of_imp {α : Type} (p q : α → Bool)
    (h : ∀ a, p a = true → q a = true) (l : List α) :
    (l.filter q).filter p = l.filter p := by
  rw [List.filter_filter]
  refine List.filter_congr ?_
  intro a _
  cases hp : p a
  · simp
  · simp [h a hp]

theorem find?_congr_mem {α : Type} {l : List α} {p q : α → Bool}
    (h : ∀ x ∈ l, p x = q x) : l.find? p = l.find? q := by
  induction l with
  | nil => rfl
  | cons a t ih =>
    have ha := h a (List.mem_cons_self a t)
    rw [List.find?_cons, List.find?_cons, ha]
    cases q a
    · exact ih fun x hx => h x (List.mem_cons_of_mem a hx)
    · rfl

/-- Restricting the joined input table commutes with joining and then
restricting on the embedding component. -/
theorem joinExtractions_filter (embs : List EmbeddingRow) (exs : List ExtractionRow)
    (pr : EmbeddingRow → Bool) :
    joinExtractions (embs.filter pr) exs
      = (joinExtractions embs exs).filter fun p => pr p.1 := by
  unfold joinExtractions
  refine filterMap_filter _ pr Prod.fst ?_ embs
  intro a b hab
  rcases Option.map_eq_some'.mp hab with ⟨x, _, rfl⟩
  rfl

theorem eq_of_mem_uniqueIds {rows : List EmbeddingRow} (h : UniqueIds rows)
    {a b : EmbeddingRow} (ha : a ∈ rows) (hb : b ∈ rows) (hid : a.id = b.id) :
    a = b := by
  induction rows with
  | nil => cases ha
  | cons r t ih =>
    rw [UniqueIds, List.pairwise_cons] at h
    rcases List.mem_cons.mp ha with rfl | ha' <;> rcases List.mem_cons.mp hb with rfl | hb'
    · rfl
    · exact absurd hid (h.1 b hb')
    · exact absurd hid.symm (h.1 a ha')
    · exact ih h.2 ha' hb'

/-! ### C3: dimension invariant of `put` -/

/-- C3: a `put` whose vector length differs from the configured
dimensionality (768, the `vector(768)` column) always fails with
`dimensionMismatch` and returns the store unchanged: it neither creates nor
mutates any record. -/
theorem C3_dimension_mismatch (s : Store) (p : PutArgs) (now : Nat)
    (h : p.embedding.length ≠ embeddingDim) :
    put s p now = (s, .error .dimensionMismatch) := by
  unfold put
  split <;> rw [if_neg h]

/-- A `PutArgs` with a vector of length 1 (≠ 768). -/
def argsShort : PutArgs :=
  { extraction_id := 1
    user_id := 1
    embedding := [(1 : ℤ)]
    task_type := .SEMANTIC_SIMILARITY
    content_hash := "h"
    source_text := "a"
    processing_time_ms := none }

/-- The empty store. -/
def store0 : Store := { rows := [], nextId := 0 }

theorem C3_witness :
    argsShort.embedding.length ≠ embeddingDim ∧
      put store0 argsShort 5 = (store0, .error .dimensionMismatch) :=
  ⟨by decide, C3_dimension_mismatch store0 argsShort 5 (by decide)⟩

/-! ### C10: the length guard of `EmbeddingUtils.cosineSimilarity` -/

/-- C10: `cosineSimilarity a b` throws iff `a` and `b` have different
lengths; for equal-length inputs it completes without throwing and returns
the IEEE value of the dot product divided by the product of the two norms
(which is `NaN`, the IEEE quotient `0/0`, when both norms are zero). -/
theorem C10_length_guard (a b : List ℤ) :
    (cosineSimilarity a b = .err ↔ a.length ≠ b.length) ∧
      (a.length = b.length →
        cosineSimilarity a b = jsCosineValue (dotQ a b) (normSq a) (normSq b)) := by
  refine ⟨⟨fun h => ?_, fun h => ?_⟩, fun h => cosineSimilarity_eq_jsCosineValue a b h⟩
  · by_cases hlen : a.length = b.length
    · exfalso
      rw [cosineSimilarity_eq_jsCosineValue a b hlen] at h
      unfold jsCosineValue at h
      split_ifs at h
    · exact hlen
  · unfold cosineSimilarity
    rw [if_pos h]

theorem C10_witness :
    ([(1 : ℤ), 2].length = [(3 : ℤ), 4].length) ∧
      cosineSimilarity [(1 : ℤ), 2] [(3 : ℤ), 4]
        = jsCosineValue (dotQ [(1 : ℤ), 2] [(3 : ℤ), 4])
            (normSq [(1 : ℤ), 2]) (normSq [(3 : ℤ), 4]) :=
  ⟨rfl, (C10_length_guard [(1 : ℤ), 2] [(3 : ℤ), 4]).2 rfl⟩

/-! ### C4: zero vectors in `EmbeddingUtils.cosineSimilarity`

The claim says the computation returns 0 on a zero vector and never
produces NaN.  The source has no zero guard: with a zero vector both the
dot product and a norm are 0, and the final division is the IEEE quotient
`0 / 0 = NaN`.  `C4_counterexample` exhibits this; `C4_zero_vector_nan` is
the amended statement (no exception is thrown, but the result is NaN, not
0). -/

/-- C4 counterexample: on the zero vector the computation yields NaN — not
0, as the claim states. -/
theorem C4_counterexample :
    cosineSimilarity [(0 : ℤ), 0] [(0 : ℤ), 0] = CosResult.nan := by decide

/-- C4 (amended): for equal-length inputs, when either vector is the zero
vector the computation completes without throwing and returns NaN (the
IEEE value of `0/0`), never 0. -/
theorem C4_zero_vector_nan (a b : List ℤ) (hlen : a.length = b.length)
    (h : normSq a = 0 ∨ normSq b = 0) :
    cosineSimilarity a b = CosResult.nan := by
  have hdot : dotQ a b = 0 := by
    rcases h with h | h
    · exact dotQ_eq_zero_left b (eq_zero_of_normSq_eq_zero h)
    · exact dotQ_eq_zero_right a (eq_zero_of_normSq_eq_zero h)
  rw [cosineSimilarity_eq_jsCosineValue a b hlen]
  unfold jsCosineValue
  rw [if_pos h, if_pos hdot]

theorem C4_witness :
    ([(0 : ℤ), 0].length = [(1 : ℤ), 1].length
        ∧ (normSq [(0 : ℤ), 0] = 0 ∨ normSq [(1 : ℤ), 1] = 0))
      ∧ cosineSimilarity [(0 : ℤ), 0] [(1 : ℤ), 1] = CosResult.nan :=
  ⟨⟨rfl, Or.inl (by decide)⟩,
    C4_zero_vector_nan [(0 : ℤ), 0] [(1 : ℤ), 1] rfl (Or.inl (by decide))⟩

/-! ### C1: per-owner isolation -/

theorem similarCandidates_filter_owner (embs : List EmbeddingRow)
    (exs : List ExtractionRow) (q : List ℤ) (t : ℚ) (uid : Nat) :
    similarCandidates (embs.filter fun e => e.user_id == uid) exs q t uid
      = similarCandidates embs exs q t uid := by
  unfold similarCandidates
  rw [joinExtractions_filter]
  exact filter_filter_of_imp _ _ (fun p h => ((Bool.and_eq_true _ _).mp h).1) _

theorem dupCandidates_filter_owner (embs : List EmbeddingRow)
    (exs : List ExtractionRow) (hash : String) (q : List ℤ) (t : ℚ) (uid : Nat) :
    dupCandidates (embs.filter fun e => e.user_id == uid) exs hash q t uid
      = dupCandidates embs exs hash q t uid := by
  unfold dupCandidates
  rw [joinExtractions_filter]
  exact filter_filter_of_imp _ _ (fun p h => ((Bool.and_eq_true _ _).mp h).1) _

/-- C1: `find_similar_content`, `find_duplicate_content` and
`get_embedding_stats` invoked with owner `uid` depend only on the records
whose `user_id` is `uid`: their output on the full table equals their
output on the table restricted to that owner.  In particular no record of
any other owner is ever returned or consulted, regardless of vector
similarity or content hash. -/
theorem C1_owner_isolation (embs : List EmbeddingRow) (exs : List ExtractionRow)
    (q : List ℤ) (t : ℚ) (m : Nat) (hash : String) (uid : Nat) :
    find_similar_content embs exs q t m uid
        = find_similar_content (embs.filter fun e => e.user_id == uid) exs q t m uid
      ∧ find_duplicate_content embs exs hash q t uid
        = find_duplicate_content (embs.filter fun e => e.user_id == uid) exs hash q t uid
      ∧ get_embedding_stats embs uid
        = get_embedding_stats (embs.filter fun e => e.user_id == uid) uid := by
  refine ⟨?_, ?_, ?_⟩
  · unfold find_similar_content
    rw [similarCandidates_filter_owner]
  · unfold find_duplicate_content
    rw [dupCandidates_filter_owner]
  · unfold get_embedding_stats
    rw [filter_filter_of_imp (fun e => e.user_id == uid) (fun e => e.user_id == uid)
      (fun _ h => h) embs]

/-! ### C6: the `find_similar_content` result contract -/

/-- A one-row store used to instantiate the contract theorems. -/
def embC6 : EmbeddingRow :=
  { id := 1
    extraction_id := 1
    user_id := 1
    embedding := [(1 : ℤ), 0]
    model := "gemini-embedding-001"
    task_type := .SEMANTIC_SIMILARITY
    content_hash := "h1"
    source_text := "a"
    text_length := 1
    tokens_used := none
    processing_time_ms := none
    created_at := 1
    updated_at := 1 }

def exC6 : ExtractionRow :=
  { id := 1
    user_id := 1
    title := "t"
    url := "u"
    summary := "s"
    created_at := 1 }

def embC8A : EmbeddingRow :=
  { id := 1
    extraction_id := 1
    user_id := 1
    embedding := [(1 : ℤ), 0]
    model := "gemini-embedding-001"
    task_type := .CLUSTERING
    content_hash := "cA"
    source_text := "a"
    text_length := 1
    tokens_used := none
    processing_time_ms := none
    created_at := 1
    updated_at := 1 }

def embC8B : EmbeddingRow :=
  { id := 2
    extraction_id := 2
    user_id := 1
    embedding := [(0 : ℤ), 1]
    model := "gemini-embedding-001"
    task_type := .CLUSTERING
    content_hash := "cB"
    source_text := "b"
    text_length := 1
    tokens_used := none
    processing_time_ms := none
    created_at := 2
    updated_at := 2 }

def exC8A : ExtractionRow :=
  { id := 1, user_id := 1, title := "tA", url := "uA", summary := "sA", created_at := 1 }

def exC8B : ExtractionRow :=
  { id := 2, user_id := 1, title := "tB", url := "uB", summary := "sB", created_at := 2 }

/-- C8 counterexample: with only 2 stored records, `cluster_embeddings`
with `num_clusters = 3` does not fail — it returns a degraded assignment
of both records to 2 clusters. -/
theorem C8_counterexample :
    ((cluster_embeddings [embC8A, embC8B] [exC8A, exC8B] 3 1).map
        fun r => (r.extraction_id, r.cluster_id)) = [(1, 1), (2, 2)]
      ∧ [embC8A, embC8B].length < 3 :=
  ⟨by decide, by decide⟩

/-- C8 (amended): `cluster_embeddings` has no failure path.  When the
owner has fewer than `k` records it still returns an assignment, every row
of which carries a cluster id between 1 and the owner's record count — a
degraded assignment over fewer than `k` clusters, never an
`InsufficientData` error (no such error exists in the code). -/
theorem C8_cluster_no_failure (embs : List EmbeddingRow)
    (exs : List ExtractionRow) (k uid : Nat)
    (_hk : (embs.filter fun e => e.user_id == uid).length < k) :
    ∀ row ∈ cluster_embeddings embs exs k uid,
      1 ≤ row.cluster_id
        ∧ row.cluster_id ≤ (embs.filter fun e => e.user_id == uid).length := by
  intro row hrow
  unfold cluster_embeddings at hrow
  have hrows := (List.mem_insertionSort _).mp hrow
  rcases List.mem_filterMap.mp hrows with ⟨tpl, _, hmap⟩
  rcases Option.map_eq_some'.mp hmap with ⟨c, hfind, rfl⟩
  have hc := List.mem_of_find?_eq_some hfind
  rcases List.mem_map.mp hc with ⟨pr, hpr, rfl⟩
  have hfst : pr.1 ∈ ((embs.filter fun e => e.user_id == uid).take k).enum.map Prod.fst :=
    List.mem_map_of_mem Prod.fst hpr
  rw [List.enum_map_fst] at hfst
  have hlt : pr.1 < ((embs.filter fun e => e.user_id == uid).take k).length :=
    List.mem_range.mp hfst
  have hlen : ((embs.filter fun e => e.user_id == uid).take k).length
      ≤ (embs.filter fun e => e.user_id == uid).length := by
    rw [List.length_take]
    exact min_le_right _ _
  refine ⟨?_, ?_⟩
  · show 1 ≤ pr.1 + 1
    omega
  · show pr.1 + 1 ≤ (embs.filter fun e => e.user_id == uid).length
    omega

theorem C8_witness :
    ([embC8A, embC8B].filter fun e => e.user_id == 1).length < 4
      ∧ ∀ row ∈ cluster_embeddings [embC8A, embC8B] [exC8A, exC8B] 4 1,
          1 ≤ row.cluster_id
            ∧ row.cluster_id ≤ ([embC8A, embC8B].filter fun e => e.user_id == 1).length :=
  ⟨by decide, C8_cluster_no_failure [embC8A, embC8B] [exC8A, exC8B] 4 1 (by decide)⟩

/-! ### C5: duplicate detection

The claim cannot hold as stated: `find_duplicate_content` is a
`LANGUAGE sql` function, and inside its body the unqualified
`content_hash` in `emb.content_hash = content_hash` resolves to the
column `emb.content_hash` — in PostgreSQL a column of the query takes
precedence over a same-named function parameter — so all three hash tests
(the `is_exact_duplicate` flag, the first `WHERE` disjunct and the first
`ORDER BY` key) are the tautology `emb.content_hash = emb.content_hash`,
true on every row because the column is `NOT NULL` (migration line 37).
Consequently every record of the owner is returned (up to the
`LIMIT 10`), flagged `is_exact_duplicate = true`, whatever hash and
threshold the caller passes: the hash parameter never matters and the
similarity threshold never filters anything.  `C5_shadowed_hash_bug`
exhibits the divergence on a one-record store. -/

/-- C5 (code bug, parameter shadowing): `embC6` is the single stored
record of owner 1, with `content_hash = "h1"` and embedding `[1, 0]`.
Calling `find_duplicate_content` with the non-matching hash `"NOMATCH"`,
the orthogonal query embedding `[0, 1]` (cosine similarity `0`, as the
third conjunct certifies via the zero dot product) and threshold `19/20`
nevertheless returns the record flagged `is_exact_duplicate = true` —
the claimed behaviour (flag true only on hash equality, inclusion of
non-matching records only at similarity at least the threshold) is
violated on both counts, because the `content_hash` parameter is
shadowed by the column. -/
theorem C5_shadowed_hash_bug :
    ((find_duplicate_content [embC6] [exC6] "NOMATCH" [(0 : ℤ), 1] (19/20) 1).map
        fun r => (r.extraction_id, r.is_exact_duplicate)) = [(1, true)]
      ∧ embC6.content_hash = "h1"
      ∧ dotQ embC6.embedding [(0 : ℤ), 1] = 0 :=
  ⟨by decide, rfl, by decide⟩

/-! ### C2 and C9: behaviour of `put` -/

theorem put_dim_error (s : Store) (p : PutArgs) (now : Nat)
    (h : p.embedding.length ≠ embeddingDim) :
    put s p now = (s, .error .dimensionMismatch) := by
  unfold put
  split <;> rw [if_neg h]

theorem put_of_find?_none (s : Store) (p : PutArgs) (now : Nat)
    (hfind : s.rows.find? (keyMatches p) = none)
    (hdim : p.embedding.length = embeddingDim) :
    put s p now
      = ({ rows := s.rows ++ [newRow p s.nextId now], nextId := s.nextId + 1 },
          .ok s.nextId) := by
  unfold put
  rw [hfind]
  simp only [hdim, if_true]

theorem put_of_find?_some (s : Store) (p : PutArgs) (now : Nat) (r : EmbeddingRow)
    (hfind : s.rows.find? (keyMatches p) = some r)
    (hdim : p.embedding.length = embeddingDim) :
    put s p now
      = ({ s with rows := s.rows.map fun r0 =>
            if r0.id == r.id then updatedRow p now r0 else r0 },
          .ok r.id) := by
  unfold put
  rw [hfind]
  simp only [hdim, if_true]

theorem keyMatches_newRow (p : PutArgs) (id now : Nat) :
    keyMatches p (newRow p id now) = true := by
  simp [keyMatches, newRow]

theorem find?_append_none {α : Type} {l1 : List α} (l2 : List α) {p : α → Bool}
    (h : l1.find? p = none) : (l1 ++ l2).find? p = l2.find? p := by
  induction l1 with
  | nil => rfl
  | cons a t ih =>
    rw [List.find?_cons] at h
    rw [List.cons_append, List.find?_cons]
    cases hpa : p a
    · rw [hpa] at h
      exact ih h
    · rw [hpa] at h
      exact Option.noConfusion (show some a = none from h)

/-- For a well-formed table, updating by the found row's id rewrites
exactly rows whose key already is the `put` key, so every row's
`(extraction_id, task_type)` is unchanged. -/
theorem updated_key_eq (s : Store) (p : PutArgs) (now : Nat) (r : EmbeddingRow)
    (hids : UniqueIds s.rows)
    (hfind : s.rows.find? (keyMatches p) = some r) :
    ∀ r0 ∈ s.rows,
      ((if r0.id == r.id then updatedRow p now r0 else r0).extraction_id,
        (if r0.id == r.id then updatedRow p now r0 else r0).task_type)
        = (r0.extraction_id, r0.task_type) := by
  intro r0 hr0
  have hrmem := List.mem_of_find?_eq_some hfind
  have hrkey := List.find?_some hfind
  by_cases hid : (r0.id == r.id) = true
  · have heq : r0 = r := eq_of_mem_uniqueIds hids hr0 hrmem (beq_iff_eq.mp hid)
    subst heq
    have ht : r0.task_type = p.task_type :=
      of_decide_eq_true ((Bool.and_eq_true _ _).mp hrkey).2
    rw [if_pos hid]
    simp [updatedRow, ht]
  · rw [if_neg hid]

theorem put_wf (s : Store) (p : PutArgs) (now : Nat) (h : WellFormed s) :
    WellFormed (put s p now).1 := by
  obtain ⟨hids, hkeys, hbound⟩ := h
  by_cases hdim : p.embedding.length = embeddingDim
  · cases hfind : s.rows.find? (keyMatches p) with
    | none =>
      rw [put_of_find?_none s p now hfind hdim]
      refine ⟨?_, ?_, ?_⟩
      · rw [UniqueIds, List.pairwise_append]
        refine ⟨hids, List.pairwise_singleton _ _, ?_⟩
        intro a ha b hb
        rw [List.mem_singleton] at hb
        subst hb
        have := hbound a ha
        show a.id ≠ s.nextId
        omega
      · rw [UniqueKeys, List.pairwise_append]
        refine ⟨hkeys, List.pairwise_singleton _ _, ?_⟩
        intro a ha b hb
        rw [List.mem_singleton] at hb
        subst hb
        have hnk := List.find?_eq_none.mp hfind a ha
        intro hkey
        apply hnk
        unfold keyMatches
        rw [show a.extraction_id = p.extraction_id from hkey.1,
          show a.task_type = p.task_type from hkey.2]
        simp
      · intro x hx
        rcases List.mem_append.mp hx with hx | hx
        · exact Nat.lt_succ_of_lt (hbound x hx)
        · rw [List.mem_singleton] at hx
          subst hx
          exact Nat.lt_succ_self _
    | some r =>
      rw [put_of_find?_some s p now r hfind hdim]
      have hidpres : ∀ r0 : EmbeddingRow,
          (if r0.id == r.id then updatedRow p now r0 else r0).id = r0.id := by
        intro r0
        by_cases hid : (r0.id == r.id) = true
        · rw [if_pos hid]
          rfl
        · rw [if_neg hid]
      refine ⟨?_, ?_, ?_⟩
      · rw [UniqueIds, List.pairwise_map]
        refine hids.imp ?_
        intro a b hne
        rw [hidpres a, hidpres b]
        exact hne
      · rw [UniqueKeys, List.pairwise_map]
        refine hkeys.imp_of_mem ?_
        intro a b hamem hbmem hne hkey
        apply hne
        have ha := updated_key_eq s p now r hids hfind a hamem
        have hb := updated_key_eq s p now r hids hfind b hbmem
        have h1 := congrArg Prod.fst ha
        have h2 := congrArg Prod.snd ha
        have h3 := congrArg Prod.fst hb
        have h4 := congrArg Prod.snd hb
        simp only at h1 h2 h3 h4
        exact ⟨h1 ▸ h3 ▸ hkey.1, h2 ▸ h4 ▸ hkey.2⟩
      · intro x hx
        rcases List.mem_map.mp hx with ⟨r0, hr0, rfl⟩
        rw [hidpres r0]
        exact hbound r0 hr0
  · rw [put_dim_error s p now hdim]
    exact ⟨hids, hkeys, hbound⟩

theorem runPuts_wf (ops : List (PutArgs × Nat)) :
    ∀ s : Store, WellFormed s → WellFormed (runPuts s ops) := by
  induction ops with
  | nil => exact fun s h => h
  | cons op ops ih => exact fun s h => ih _ (put_wf s op.1 op.2 h)

theorem wellFormed_store0 : WellFormed store0 :=
  ⟨List.Pairwise.nil, List.Pairwise.nil, fun r hr => absurd hr (List.not_mem_nil r)⟩

/-- C2: starting from the empty store, any sequence of `put` calls leaves
at most one record per `(extraction_id, task_type)` key (the
`UNIQUE(extraction_id, task_type)` invariant); and a `put` whose key is
already present updates the existing record in place — the list of keys of
the table, position by position, is unchanged, so no duplicate is ever
created. -/
theorem C2_key_uniqueness :
    (∀ ops : List (PutArgs × Nat), UniqueKeys (runPuts store0 ops).rows)
      ∧ ∀ (s : Store) (p : PutArgs) (now : Nat), WellFormed s →
          (∃ r ∈ s.rows, keyMatches p r = true) →
          ((put s p now).1.rows.map fun r => (r.extraction_id, r.task_type))
            = s.rows.map fun r => (r.extraction_id, r.task_type) := by
  constructor
  · intro ops
    exact (runPuts_wf ops store0 wellFormed_store0).2.1
  · intro s p now hwf hkey
    have hsome : (s.rows.find? (keyMatches p)).isSome :=
      List.find?_isSome.mpr hkey
    obtain ⟨r, hfind⟩ := Option.isSome_iff_exists.mp hsome
    by_cases hdim : p.embedding.length = embeddingDim
    · rw [put_of_find?_some s p now r hfind hdim]
      show ((s.rows.map fun r0 => if r0.id == r.id then updatedRow p now r0 else r0).map
          fun r => (r.extraction_id, r.task_type)) = _
      rw [List.map_map]
      exact List.map_congr_left (updated_key_eq s p now r hwf.1 hfind)
    · rw [put_dim_error s p now hdim]

/-- The `put` arguments of a valid (768-dimensional) request. -/
def argsC2 : PutArgs :=
  { extraction_id := 1
    user_id := 1
    embedding := List.replicate 768 1
    task_type := .SEMANTIC_SIMILARITY
    content_hash := "h"
    source_text := "a"
    processing_time_ms := none }

/-- A well-formed one-row store already holding the key of `argsC2`. -/
def storeC2 : Store := { rows := [newRow argsC2 0 5], nextId := 1 }

theorem C2_witness :
    (WellFormed storeC2 ∧ ∃ r ∈ storeC2.rows, keyMatches argsC2 r = true)
      ∧ ((put storeC2 argsC2 7).1.rows.map fun r => (r.extraction_id, r.task_type))
          = storeC2.rows.map fun r => (r.extraction_id, r.task_type) := by
  have hwf : WellFormed storeC2 :=
    ⟨List.pairwise_singleton _ _, List.pairwise_singleton _ _,
      fun r hr => by
        simp only [storeC2, List.mem_singleton] at hr
        subst hr
        exact Nat.zero_lt_one⟩
  exact ⟨⟨hwf, by decide⟩, C2_key_uniqueness.2 storeC2 argsC2 7 hwf (by decide)⟩

/-- C9: a second `put` with inputs identical to an immediately preceding
successful `put` changes nothing observable except the `updated_at`
timestamp of the one record with that key (rewritten by the
`update_embeddings_updated_at` trigger): the resulting table equals the
previous one with only that record's `updated_at` replaced, the id
generator does not advance, and the same record id is returned. -/
theorem C9_put_idempotent (s : Store) (p : PutArgs) (t1 t2 : Nat)
    (s1 : Store) (rid : Nat) (hwf : WellFormed s)
    (h : put s p t1 = (s1, .ok rid)) :
    put s1 p t2
      = ({ s1 with rows := s1.rows.map fun r0 =>
            if r0.id == rid then { r0 with updated_at := t2 } else r0 },
          .ok rid) := by
  obtain ⟨hids, hkeys, hbound⟩ := hwf
  by_cases hdim : p.embedding.length = embeddingDim
  · cases hfind : s.rows.find? (keyMatches p) with
    | none =>
      rw [put_of_find?_none s p t1 hfind hdim] at h
      have hs1 : s1 = { rows := s.rows ++ [newRow p s.nextId t1], nextId := s.nextId + 1 } :=
        (congrArg Prod.fst h).symm
      have hrid : rid = s.nextId := by
        have h2 := congrArg Prod.snd h
        simp only at h2
        exact (Except.ok.injEq _ _).mp h2.symm
      subst hs1
      subst hrid
      have hfind2 : (s.rows ++ [newRow p s.nextId t1]).find? (keyMatches p)
          = some (newRow p s.nextId t1) := by
        rw [find?_append_none _ hfind, List.find?_cons, keyMatches_newRow]
      rw [put_of_find?_some _ p t2 _ hfind2 hdim]
      have hmap : ((s.rows ++ [newRow p s.nextId t1]).map
            fun r0 => if r0.id == (newRow p s.nextId t1).id then updatedRow p t2 r0 else r0)
          = ((s.rows ++ [newRow p s.nextId t1]).map
            fun r0 => if r0.id == s.nextId then { r0 with updated_at := t2 } else r0) := by
        refine List.map_congr_left ?_
        intro r0 hr0
        rcases List.mem_append.mp hr0 with hr0 | hr0
        · have hlt := hbound r0 hr0
          have hne : (r0.id == s.nextId) = false := by
            simp only [beq_eq_false_iff_ne, ne_eq]
            omega
          show (if r0.id == s.nextId then updatedRow p t2 r0 else r0)
              = (if r0.id == s.nextId then { r0 with updated_at := t2 } else r0)
          rw [hne, if_neg Bool.false_ne_true, if_neg Bool.false_ne_true]
        · rw [List.mem_singleton] at hr0
          subst hr0
          show (if (s.nextId == s.nextId) = true
              then updatedRow p t2 (newRow p s.nextId t1) else newRow p s.nextId t1)
            = (if (s.nextId == s.nextId) = true
              then { newRow p s.nextId t1 with updated_at := t2 } else newRow p s.nextId t1)
          rw [if_pos (beq_self_eq_true _), if_pos (beq_self_eq_true _)]
          rfl
      rw [hmap]
      rfl
    | some r =>
      rw [put_of_find?_some s p t1 r hfind hdim] at h
      have hs1 : s1 = { s with rows := s.rows.map fun r0 =>
          if r0.id == r.id then updatedRow p t1 r0 else r0 } := (congrArg Prod.fst h).symm
      have hrid : rid = r.id := by
        have h2 := congrArg Prod.snd h
        simp only at h2
        exact (Except.ok.injEq _ _).mp h2.symm
      subst hs1
      subst hrid
      have hrmem := List.mem_of_find?_eq_some hfind
      have hrkey := List.find?_some hfind
      have ht : r.task_type = p.task_type :=
        of_decide_eq_true ((Bool.and_eq_true _ _).mp hrkey).2
      have hcongr : ∀ r0 ∈ s.rows,
          keyMatches p (if r0.id == r.id then updatedRow p t1 r0 else r0)
            = keyMatches p r0 := by
        intro r0 hr0
        by_cases hid : (r0.id == r.id) = true
        · have heq : r0 = r :=
            eq_of_mem_uniqueIds hids hr0 hrmem (beq_iff_eq.mp hid)
          subst heq
          rw [if_pos hid]
          simp [keyMatches, updatedRow, ht]
        · rw [if_neg hid]
      have hfind2 : ((s.rows.map fun r0 =>
            if r0.id == r.id then updatedRow p t1 r0 else r0).find? (keyMatches p))
          = some (updatedRow p t1 r) := by
        rw [List.find?_map]
        have hbase : (s.rows.find?
            ((keyMatches p) ∘ fun r0 => if r0.id == r.id then updatedRow p t1 r0 else r0))
            = some r := by
          have hc : s.rows.find?
              ((keyMatches p) ∘ fun r0 => if r0.id == r.id then updatedRow p t1 r0 else r0)
              = s.rows.find? (keyMatches p) :=
            find?_congr_mem fun x hx => hcongr x hx
          rw [hc, hfind]
        rw [hbase]
        simp only [Option.map_some', beq_self_eq_true, if_true]
      rw [put_of_find?_some _ p t2 _ hfind2 hdim]
      have hmap : (((s.rows.map fun r0 =>
              if r0.id == r.id then updatedRow p t1 r0 else r0).map
            fun r0 => if r0.id == (updatedRow p t1 r).id then updatedRow p t2 r0 else r0)
          = ((s.rows.map fun r0 =>
              if r0.id == r.id then updatedRow p t1 r0 else r0).map
            fun r0 => if r0.id == r.id then { r0 with updated_at := t2 } else r0)) := by
        rw [List.map_map, List.map_map]
        refine List.map_congr_left ?_
        intro r0 hr0
        simp only [Function.comp]
        by_cases hid : (r0.id == r.id) = true
        · have heq : r0 = r :=
            eq_of_mem_uniqueIds hids hr0 hrmem (beq_iff_eq.mp hid)
          subst heq
          rw [if_pos hid]
          show (if (updatedRow p t1 r0).id == (updatedRow p t1 r0).id then
                updatedRow p t2 (updatedRow p t1 r0) else updatedRow p t1 r0)
              = (if (updatedRow p t1 r0).id == r0.id then
                { updatedRow p t1 r0 with updated_at := t2 } else updatedRow p t1 r0)
          have h1 : ((updatedRow p t1 r0).id == (updatedRow p t1 r0).id) = true :=
            beq_self_eq_true _
          have h2 : ((updatedRow p t1 r0).id == r0.id) = true := beq_self_eq_true _
          rw [if_pos h1, if_pos h2]
          rfl
        · rw [if_neg hid]
          show (if r0.id == (updatedRow p t1 r).id then updatedRow p t2 r0 else r0)
              = (if r0.id == r.id then { r0 with updated_at := t2 } else r0)
          rw [if_neg (show ¬((r0.id == (updatedRow p t1 r).id) = true) from hid),
            if_neg hid]
      rw [hmap]
      rfl
  · rw [put_dim_error s p t1 hdim] at h
    have h2 := congrArg Prod.snd h
    simp only at h2
    exact absurd h2 (by simp)

set_option maxRecDepth 4000 in
theorem C9_witness :
    (WellFormed store0 ∧ put store0 argsC2 5 = ((put store0 argsC2 5).1, .ok 0))
      ∧ put (put store0 argsC2 5).1 argsC2 7
          = ({ (put store0 argsC2 5).1 with
                rows := (put store0 argsC2 5).1.rows.map fun r0 =>
                  if r0.id == 0 then { r0 with updated_at := 7 } else r0 },
              .ok 0) := by
  have h2 : (put store0 argsC2 5).2 = .ok 0 := by
    rw [put_of_find?_none store0 argsC2 5 rfl (by decide)]
    rfl
  have h : put store0 argsC2 5 = ((put store0 argsC2 5).1, .ok 0) := by
    have he : ((put store0 argsC2 5).1, (put store0 argsC2 5).2) = put store0 argsC2 5 :=
      Prod.mk.eta
    rw [h2] at he
    exact he.symm
  exact ⟨⟨wellFormed_store0, h⟩,
    C9_put_idempotent store0 argsC2 5 7 _ 0 wellFormed_store0 h⟩

end TLDW
